import Mathlib

/-!
Verification development for the benday canvas codec and transform engine.

The Go source is shallowly embedded below.  Go machine integers are modelled
as `Int` with Go's truncated division and remainder (`Int.tdiv` / `Int.tmod`),
and `uint32` pixel-channel arithmetic as `Nat` (all channel expressions stay
far below `2 ^ 32`, so no wrap-around occurs in the source).  Fallible
operations return explicit result types; filesystem state relevant to an
operation is passed in as an explicit argument.
-/

namespace Benday

/-- Modelled from the spec: the constants `BRAILLE_WIDTH`/`BRAILLE_HEIGHT`
are declared in a repository file that is not under `src/`.  The spec fixes
the braille cell dot geometry as 2 wide by 4 tall ("2x4 is the fixed braille
cell dot geometry"; glossary: "Cell: a 2-wide, 4-tall block of raster
pixels"). -/
def BRAILLE_WIDTH : Int := 2

/-- Modelled from the spec: see `BRAILLE_WIDTH`. -/
def BRAILLE_HEIGHT : Int := 4

/-- Embedding of `InvalidImgDimensionE` (src/model_preview_art.go lines
36-42): the geometry-error value carrying the measured value, the expected
divisor, which axis is reported, and whether the unpadded adjustment was
attempted. -/
structure InvalidImgDimensionE where
  measure : Int
  mustBeDivisibleBy : Int
  errorOnX : Bool
  isUnpadded : Bool
deriving DecidableEq, Repr

/-- Embedding of `(InvalidImgDimensionE).Error` (src/model_preview_art.go
lines 44-62): renders the user-facing diagnostic string. -/
def InvalidImgDimensionE.errString (err : InvalidImgDimensionE) : String :=
  let measureName := if err.errorOnX then "width" else "height"
  let minusOneText := if err.isUnpadded then " - 1" else ""
  "Invalid image dimension. Expected " ++ measureName ++ minusOneText ++
    " to be divisible by " ++ toString err.mustBeDivisibleBy ++
    ", but is instead " ++ toString err.measure ++ " px."

/-- Embedding of `canvasMeasure` (src/model_preview_art.go lines 101-111). -/
structure canvasMeasure where
  imageWidth : Int
  imageHeight : Int
  isUnpadded : Bool
  charsX : Int
  charsY : Int
  brailleW : Int
  brailleH : Int
deriving DecidableEq, Repr

/-- Result of a measurement: either a `canvasMeasure` or a geometry error. -/
inductive MeasureResult where
  | ok (m : canvasMeasure)
  | error (e : InvalidImgDimensionE)
deriving DecidableEq, Repr

/-- Embedding of the pure core of `getCanvasMeasurement`
(src/model_preview_art.go lines 456-507), after the PNG config has been
decoded to `width`/`height`.  Go `int` arithmetic is mirrored by `Int` with
truncated division/remainder.  Note that the second error branch reproduces
the source exactly: it passes `config.Height` as the measure but `brailleW`
as the divisor and `true` for `errorOnX` (line 493 of the source). -/
def getCanvasMeasurement (width height paddingX paddingY : Int) : MeasureResult :=
  let padded := (width.tmod (BRAILLE_WIDTH + paddingX) == 0) &&
    (height.tmod (BRAILLE_HEIGHT + paddingY) == 0)
  let brailleW := if padded then BRAILLE_WIDTH + paddingX else BRAILLE_WIDTH
  let brailleH := if padded then BRAILLE_HEIGHT + paddingY else BRAILLE_HEIGHT
  let imageTestWidth := if padded then width else width - 1
  let imageTestHeight := if padded then height else height - 1
  let charsX := imageTestWidth.tdiv brailleW
  let charsY := imageTestHeight.tdiv brailleH
  if charsX * brailleW ≠ imageTestWidth then
    .error ⟨width, brailleW, true, !padded⟩
  else if charsY * brailleH ≠ imageTestHeight then
    .error ⟨height, brailleW, true, !padded⟩
  else
    .ok ⟨width, height, !padded, charsX, charsY, brailleW, brailleH⟩

/-- Embedding of `shadedType` (src/model_preview_art.go lines 331-338). -/
inductive shadedType where
  | colorTransparent
  | colorNonGrayscale
  | colorNonShaded
  | colorShaded
deriving DecidableEq, Repr

/-- Embedding of `shadeType` (src/model_preview_art.go lines 341-369) on an
NRGBA sample with 8-bit channels.  The source converts the sample to
`color.NRGBA` and widens the channels to `uint32`; channel values are below
256 so every arithmetic expression in the source stays below `2 ^ 32` and is
mirrored exactly by `Nat`. -/
def shadeType (r g b a : Nat) : shadedType :=
  if 3 * a < 0xff then
    .colorTransparent
  else if 16 * (2 * (max r (max g b) - min r (min g b))) > 3 * 0xff then
    .colorNonGrayscale
  else if r + g + b < 2 * a then
    .colorShaded
  else
    .colorNonShaded

/-- Splitting a character list at every occurrence of a separator character.
This embeds Go's `strings.Split(s, sep)` for a single-character separator
(as used with "." and "x" in `GetPixels`): the result always has one part
more than the number of separator occurrences. -/
def splitOnChar (c : Char) : List Char → List (List Char)
  | [] => [[]]
  | x :: xs =>
    if x = c then
      [] :: splitOnChar c xs
    else
      match splitOnChar c xs with
      | [] => [[x]]
      | y :: ys => (x :: y) :: ys

/-- Inverse of `splitOnChar`: join parts with the separator character between
them (Go's `strings.Join(parts, sep)` for a single-character separator). -/
def joinChar (c : Char) : List (List Char) → List Char
  | [] => []
  | [p] => p
  | p :: ps => p ++ c :: joinChar c ps

/-- Embedding of Go's `strconv.Atoi` (= `ParseInt(s, 10, 0)` with the 64-bit
`int` size): an optional single leading `+` or `-`, then at least one ASCII
decimal digit, value within the `int64` range; anything else is an error
(`none`). -/
def goAtoi (s : List Char) : Option Int :=
  match s with
  | [] => none
  | c0 :: rest =>
    let neg := c0 = '-'
    let digits := if c0 = '-' || c0 = '+' then rest else c0 :: rest
    if digits = [] then none
    else if digits.all (fun d => '0' ≤ d && d ≤ '9') then
      let n : Nat := digits.foldl (fun acc d => 10 * acc + (d.toNat - 48)) 0
      if neg then
        if n ≤ 2 ^ 63 then some (-(n : Int)) else none
      else
        if n ≤ 2 ^ 63 - 1 then some (n : Int) else none
    else none

/-- The value Go's `strconv.Atoi` produces when its error is discarded, as in
`paddingX, _ := strconv.Atoi(...)` (src/model_preview_art.go line 203). -/
def goAtoiD (s : List Char) : Int := (goAtoi s).getD 0

/-- Embedding of `isValidPadding` (src/model_create_canvas.go lines
127-142): nonempty, parses via `strconv.Atoi`, and the parsed value is not
negative. -/
def isValidPadding (s : List Char) : Bool :=
  if s.length < 1 then false
  else
    match goAtoi s with
    | none => false
    | some num => !(num < 0)

/-- Result of the file-name parsing performed at the top of
`previewArtModel.GetPixels`. -/
inductive ParsePaddingResult where
  | ok (paddingX paddingY : Int)
  | invalidFileName
  | invalidPadding
deriving DecidableEq, Repr

/-- Embedding of the file-name parsing in `previewArtModel.GetPixels`
(src/model_preview_art.go lines 175-207): at least three dots, the segments
from the right must be `png`, `by`, and a padding spec containing exactly one
`x` whose two sides pass `isValidPadding`; the two sides are then parsed by
`strconv.Atoi`.  A failed padding validation produces a distinct error
(`invalidPadding`, the "Padding is an invalid value" message) from the
`InvalidFileNameError` cases. -/
def parsePaddingFromFileName (fileName : List Char) : ParsePaddingResult :=
  if fileName.count '.' < 3 then .invalidFileName
  else
    let fileNameInfo := (splitOnChar '.' fileName).reverse
    let imgExtension := fileNameInfo.getD 0 []
    let bySegment := fileNameInfo.getD 1 []
    let paddingSpec := fileNameInfo.getD 2 []
    if imgExtension ≠ ['p', 'n', 'g'] then .invalidFileName
    else if bySegment ≠ ['b', 'y'] then .invalidFileName
    else if paddingSpec.count 'x' ≠ 1 then .invalidFileName
    else
      let paddingSpecSplit := splitOnChar 'x' paddingSpec
      let p0 := paddingSpecSplit.getD 0 []
      let p1 := paddingSpecSplit.getD 1 []
      if isValidPadding p0 && isValidPadding p1 then
        .ok (goAtoiD p0) (goAtoiD p1)
      else .invalidPadding

/-- Modelled from the spec: `isBraille` is declared in a repository file that
is not under `src/`.  The spec fixes the accepted characters as the Unicode
braille block: "using only characters in the Unicode braille block
(U+2800-U+28FF)". -/
def isBraille (r : Char) : Bool :=
  0x2800 ≤ r.toNat && r.toNat ≤ 0x28FF

/-- The character filter applied to each imported line
(src/unnamed/part_000 lines 150-160): keep braille glyphs and spaces,
drop everything else. -/
def keepRune (r : Char) : Bool := isBraille r || r == ' '

/-- One trailing carriage return is stripped from a scanned line, as in
`bufio.ScanLines`' `dropCR`. -/
def dropCR (l : List Char) : List Char :=
  if l.getLast? = some '\r' then l.dropLast else l

/-- Embedding of reading all lines of a text file with `bufio.Scanner` and
`bufio.ScanLines` (src/unnamed/part_000 lines 145-166): split at every
newline, except that input ending in a newline produces no final empty line,
empty input produces no lines, and each line has one trailing `\r`
stripped. -/
def goScanLines (content : List Char) : List (List Char) :=
  if content = [] then []
  else
    let parts := splitOnChar '\n' content
    let parts := if parts.getLast? = some [] then parts.dropLast else parts
    parts.map dropCR

/-- Result of `importPixelData`: a glyph grid or the "No data received."
error (both failure paths of the source carry that same message). -/
inductive ImportResult where
  | ok (pixels : List (List Char))
  | error
deriving DecidableEq, Repr

/-- Embedding of `importPixelData` (src/unnamed/part_000 lines 143-196) on
the file's text content.  Each scanned line is filtered by `keepRune`;
`maxLen` starts at `-1` and takes the maximum filtered length; empty input
or all-empty lines give the error.  The source's final padding loop reads
`line := pixels[i]` (a copy of the slice header), appends pad glyphs to that
local copy, and never stores it back, so the returned rows are the filtered
lines unchanged; the loop is reproduced here with the discarded append made
explicit. -/
def importPixelData (content : List Char) : ImportResult :=
  let pixels := (goScanLines content).map (fun line => line.filter keepRune)
  let maxLen : Int := pixels.foldl (fun acc l => max acc (l.length : Int)) (-1)
  if pixels = [] then .error
  else if pixels.all (fun line => line.isEmpty) then .error
  else
    .ok (pixels.map (fun line =>
      let _padded := line ++ List.replicate (maxLen - line.length).toNat '⠀'
      line))

/-- The text `exportBraille` builds from a glyph grid
(src/model_preview_art.go lines 838-848): the first row, then a newline
before each further row.  The source indexes `pixels[0]` without a bounds
check; `none` models the runtime panic on an empty grid. -/
def exportText (pixels : List (List Char)) : Option (List Char) :=
  match pixels with
  | [] => none
  | first :: rest => some (first ++ (rest.map (fun line => '\n' :: line)).flatten)

/-- Abstract content of the file at a destination path. -/
inductive StoredFile where
  | png (brailleCharsW brailleCharsH paddingX paddingY : Int)
  | truncated
  | text (content : List Char)
deriving DecidableEq, Repr

/-- Outcome of `exportBraille`. -/
inductive ExportOutcome where
  | alreadyExists
  | rowAccessOutOfBounds
  | exported
deriving DecidableEq, Repr

/-- Embedding of `exportBraille` (src/model_preview_art.go lines 832-856)
together with its effect on the destination file.  `dest` is the file found
at the destination path (`none` when `os.Stat` fails because no file is
there).  When a file exists the function returns the "File already exists."
error before touching the grid or the file; otherwise it builds the text
(reading `pixels[0]` unguarded) and writes it. -/
def exportBraille (dest : Option StoredFile) (pixels : List (List Char)) :
    ExportOutcome × Option StoredFile :=
  match dest with
  | some prev => (.alreadyExists, some prev)
  | none =>
    match exportText pixels with
    | none => (.rowAccessOutOfBounds, none)
    | some t => (.exported, some (.text t))

/-- Outcome of `createCanvasModel.createFile`. -/
inductive CreateOutcome where
  | createError
  | inputError
  | created
deriving DecidableEq, Repr

/-- Embedding of `createCanvasModel.createFile` (src/model_create_canvas.go
lines 407-487) together with its effect on the destination file.  `dest` is
the file previously at the destination path.  The source calls
`os.Create(fileName)` first, which succeeds whether or not a file already
exists there and truncates any existing file; only afterwards does it
validate the inputs (returning with the file already truncated when they are
invalid) and, on success, encode the freshly generated canvas over the
destination.  No branch of the source inspects whether the destination
already existed, so `dest` never influences the result. -/
def createFile (dest : Option StoredFile) (osCreateFails : Bool)
    (inputsHaveError : Bool)
    (brailleCharsW brailleCharsH paddingX paddingY : Int) :
    CreateOutcome × Option StoredFile :=
  if osCreateFails then (.createError, dest)
  else if inputsHaveError then (.inputError, some .truncated)
  else (.created, some (.png brailleCharsW brailleCharsH paddingX paddingY))

/-- Outcome of a raster write operation (toggle padding / resize / clean).
`wrote` records the pixel dimensions of the raster encoded over the file;
the pixel content itself is not needed by any claim and is abstracted. -/
inductive WriteOpResult where
  | decodeFailed
  | silentTooSoon
  | geometryFailed (e : InvalidImgDimensionE)
  | noop
  | wrote (newWidth newHeight : Int)
deriving DecidableEq, Repr

/-- Embedding of the control flow of `togglePaddingState`
(src/model_preview_art.go lines 254-329).  `fileExists` reflects the initial
`os.Stat`; `sinceMs` is the file's age in milliseconds at the start of the
call.  The debounce check precedes the measurement, the decode, and the
write.  On the write path the new raster dimensions follow lines 269-298 of
the source; the copied pixel content is abstracted away. -/
def togglePaddingState (fileExists : Bool) (sinceMs : Nat)
    (width height paddingX paddingY : Int) : WriteOpResult :=
  if !fileExists then .decodeFailed
  else if sinceMs < 1000 then .silentTooSoon
  else
    match getCanvasMeasurement width height paddingX paddingY with
    | .error e => .geometryFailed e
    | .ok m =>
      let afterW := if m.isUnpadded then m.brailleW + paddingX else m.brailleW - paddingX
      let afterH := if m.isUnpadded then m.brailleH + paddingY else m.brailleH - paddingY
      let newW := m.charsX * afterW + (if !m.isUnpadded then 1 else 0)
      let newH := m.charsY * afterH + (if !m.isUnpadded then 1 else 0)
      .wrote newW newH

/-- Embedding of the control flow of `resizeCanvas`
(src/model_preview_art.go lines 767-830).  A zero delta returns immediately
with no stat, no debounce check and no write (`noop`); otherwise the
debounce check precedes everything else.  New raster dimensions follow lines
798-807 of the source. -/
def resizeCanvas (fileExists : Bool) (sinceMs : Nat)
    (width height paddingX paddingY resizeX resizeY : Int) : WriteOpResult :=
  if resizeX = 0 ∧ resizeY = 0 then .noop
  else if !fileExists then .decodeFailed
  else if sinceMs < 1000 then .silentTooSoon
  else
    match getCanvasMeasurement width height paddingX paddingY with
    | .error e => .geometryFailed e
    | .ok m =>
      let newCharsX := m.charsX + resizeX
      let newCharsY := m.charsY + resizeY
      let newW := newCharsX * m.brailleW + (if m.isUnpadded then 1 else 0)
      let newH := newCharsY * m.brailleH + (if m.isUnpadded then 1 else 0)
      .wrote newW newH

/-- Embedding of the control flow of `cleanCanvas`
(src/model_preview_art.go lines 371-454).  The debounce check precedes the
measurement, the decode and the write; the cleaned raster keeps the measured
dimensions (line 398).  The per-pixel recoloring (including the
`removeNonGrayscale` option) only affects the abstracted pixel content. -/
def cleanCanvas (fileExists : Bool) (sinceMs : Nat)
    (width height paddingX paddingY : Int) (_removeNonGrayscale : Bool) :
    WriteOpResult :=
  if !fileExists then .decodeFailed
  else if sinceMs < 1000 then .silentTooSoon
  else
    match getCanvasMeasurement width height paddingX paddingY with
    | .error e => .geometryFailed e
    | .ok m => .wrote m.imageWidth m.imageHeight

/-- Claim C1: the claim states that both create and export refuse when the
destination already exists and never overwrite it.  Export does
(second conjunct), but `createCanvasModel.createFile` calls `os.Create`
unconditionally: with a file already present at the destination its
content is replaced by the freshly generated canvas, as this evaluation
shows. -/
theorem createFile_overwrites_existing_destination :
    createFile (some (.png 1 1 0 0)) false false 2 3 0 2 =
      (.created, some (.png 2 3 0 2)) ∧
    exportBraille (some (.png 1 1 0 0)) [['⠁']] =
      (.alreadyExists, some (.png 1 1 0 0)) :=
  ⟨rfl, rfl⟩

/-- Claim C2: evaluating the source at a raster whose height check fails
(21x24, padding (0,0): width falls back to the unpadded test and passes, the
height does not).  The error carries the failed height measure 24, but
reports `errorOnX = true` and the width divisor 2 instead of the height
divisor 4, so the rendered diagnostic names "width" for a height failure. -/
theorem getCanvasMeasurement_height_failure_misreported :
    getCanvasMeasurement 21 24 0 0 = .error ⟨24, 2, true, true⟩ ∧
    InvalidImgDimensionE.errString ⟨24, 2, true, true⟩ =
      "Invalid image dimension. Expected width - 1 to be divisible by 2, but is instead 24 px." :=
  ⟨by decide, rfl⟩

/-- Claim C3 (counterexample): measuring a 20x24 raster with padding (0,0)
does not fail at all — the padded interpretation already divides evenly
(20 % 2 == 0 and 24 % 4 == 0), so the first attempt succeeds with a 10x6
grid of 2x4 cells. -/
theorem getCanvasMeasurement_20x24_pad00_succeeds :
    getCanvasMeasurement 20 24 0 0 = .ok ⟨20, 24, false, 10, 6, 2, 4⟩ := by
  decide

/-- Claim C3 (amended): measuring a raster of pixel size 20x24 with a
requested padding spec of (0,0) succeeds under the padded interpretation
with cell counts 10x6 (it does not produce a geometry error). -/
theorem getCanvasMeasurement_20x24_pad00_padded :
    ∃ m, getCanvasMeasurement 20 24 0 0 = .ok m ∧
      m.isUnpadded = false ∧ m.charsX = 10 ∧ m.charsY = 6 ∧
      m.brailleW = 2 ∧ m.brailleH = 4 :=
  ⟨⟨20, 24, false, 10, 6, 2, 4⟩, by decide, rfl, rfl, rfl, rfl, rfl⟩

/-- Claim C4: evaluating the source on the accepted two-line input
"⠁⠂\n⠁".  The returned grid keeps rows of lengths 2 and 1 — the final
padding loop of `importPixelData` appends to a local copy of each row and
never stores it back — so the short row is not padded to `[⠁, ⠀]` and the
result is not rectangular. -/
theorem importPixelData_does_not_pad_short_rows :
    importPixelData ("⠁⠂\n⠁".toList) = .ok [['⠁', '⠂'], ['⠁']] ∧
    importPixelData ("⠁⠂\n⠁".toList) ≠ .ok [['⠁', '⠂'], ['⠁', '⠀']] := by
  constructor
  · decide
  · decide

/-- Claim C6: the shade classifier applies exactly the three threshold rules
in their stated order: transparent iff `3 * alpha < 255`; otherwise
non-grayscale iff `16 * (2 * (max(R,G,B) - min(R,G,B))) > 3 * 255`;
otherwise shaded iff `R + G + B < 2 * alpha`; otherwise unshaded. -/
theorem shadeType_rule_order (r g b a : Nat)
    (_hr : r < 256) (_hg : g < 256) (_hb : b < 256) (_ha : a < 256) :
    (shadeType r g b a = .colorTransparent ↔ 3 * a < 255) ∧
    (255 ≤ 3 * a →
      (shadeType r g b a = .colorNonGrayscale ↔
        3 * 255 < 16 * (2 * (max r (max g b) - min r (min g b))))) ∧
    (255 ≤ 3 * a → 16 * (2 * (max r (max g b) - min r (min g b))) ≤ 3 * 255 →
      (shadeType r g b a = .colorShaded ↔ r + g + b < 2 * a)) ∧
    (255 ≤ 3 * a → 16 * (2 * (max r (max g b) - min r (min g b))) ≤ 3 * 255 →
      2 * a ≤ r + g + b → shadeType r g b a = .colorNonShaded) := by
  unfold shadeType
  split_ifs with h1 h2 h3 <;>
    refine ⟨?_, ?_, ?_, ?_⟩ <;> simp_all

/-- Claim C6 witness: an opaque black sample classifies as shaded. -/
theorem shadeType_rule_order_witness : shadeType 0 0 0 255 = .colorShaded :=
  ((shadeType_rule_order 0 0 0 255 (by decide) (by decide) (by decide)
    (by decide)).2.2.1 (by decide) (by decide)).mpr (by decide)

/-- Claim C8: every write operation (toggle padding, resize with a nonzero
delta, clean) checks the file's age first: when the file was modified less
than one second ago the call returns the silent too-soon condition — a
result distinct from every error and from the `wrote` outcome, so the raster
file is not modified. -/
theorem writeOps_debounce_silent (sinceMs : Nat) (h : sinceMs < 1000)
    (width height paddingX paddingY resizeX resizeY : Int)
    (removeNonGrayscale : Bool) (hr : ¬(resizeX = 0 ∧ resizeY = 0)) :
    togglePaddingState true sinceMs width height paddingX paddingY =
      .silentTooSoon ∧
    resizeCanvas true sinceMs width height paddingX paddingY resizeX resizeY =
      .silentTooSoon ∧
    cleanCanvas true sinceMs width height paddingX paddingY removeNonGrayscale =
      .silentTooSoon := by
  refine ⟨?_, ?_, ?_⟩ <;>
    simp [togglePaddingState, resizeCanvas, cleanCanvas, h, hr]

/-- Claim C8 witness: the three operations at a concrete too-recent age. -/
theorem writeOps_debounce_silent_witness :
    togglePaddingState true 500 20 24 0 2 = .silentTooSoon ∧
    resizeCanvas true 500 20 24 0 2 1 0 = .silentTooSoon ∧
    cleanCanvas true 500 20 24 0 2 false = .silentTooSoon :=
  writeOps_debounce_silent 500 (by decide) 20 24 0 2 1 0 false (by decide)

/-- Claim C10: `exportBraille` reads the first row of the grid without a
bounds check.  For every grid with at least one row the access is in
bounds (the out-of-bounds outcome cannot occur, whatever the destination
state), and the precondition is necessary: on the empty grid with a fresh
destination the row-0 access is out of bounds. -/
theorem exportBraille_first_row_access :
    (∀ pixels : List (List Char), pixels ≠ [] →
      ∀ dest, (exportBraille dest pixels).1 ≠ .rowAccessOutOfBounds) ∧
    (exportBraille none ([] : List (List Char))).1 = .rowAccessOutOfBounds := by
  constructor
  · intro pixels hne dest
    match dest, pixels with
    | some prev, _ => simp [exportBraille]
    | none, [] => exact absurd rfl hne
    | none, first :: rest => simp [exportBraille, exportText]
  · rfl

/-- Claim C10 witness: a one-row grid is safe to export to a fresh
destination. -/
theorem exportBraille_first_row_access_witness :
    (exportBraille none [['⠿']]).1 ≠ .rowAccessOutOfBounds :=
  exportBraille_first_row_access.1 [['⠿']] (by decide) none

/-- Claim C5: canvas measurement follows the two-attempt algorithm.  With
`cellW = 2 + paddingX` and `cellH = 4 + paddingY`, if both raster dimensions
divide evenly the result is padded mode with cell counts `width / cellW` and
`height / cellH`; otherwise the algorithm retries with `cellW = 2`,
`cellH = 4` against `(width - 1, height - 1)` and, if both divide evenly,
returns unpadded mode with those counts. -/
theorem getCanvasMeasurement_two_attempt (width height paddingX paddingY : Int) :
    (width.tmod (2 + paddingX) = 0 → height.tmod (4 + paddingY) = 0 →
      getCanvasMeasurement width height paddingX paddingY =
        .ok ⟨width, height, false, width.tdiv (2 + paddingX),
          height.tdiv (4 + paddingY), 2 + paddingX, 4 + paddingY⟩) ∧
    (¬(width.tmod (2 + paddingX) = 0 ∧ height.tmod (4 + paddingY) = 0) →
      (width - 1).tmod 2 = 0 → (height - 1).tmod 4 = 0 →
      getCanvasMeasurement width height paddingX paddingY =
        .ok ⟨width, height, true, (width - 1).tdiv 2, (height - 1).tdiv 4,
          2, 4⟩) := by
  constructor
  · intro hw hh
    have hw' := Int.tdiv_mul_cancel_of_tmod_eq_zero hw
    have hh' := Int.tdiv_mul_cancel_of_tmod_eq_zero hh
    simp [getCanvasMeasurement, BRAILLE_WIDTH, BRAILLE_HEIGHT, hw, hh, hw', hh']
  · intro hpad hw hh
    have hw' := Int.tdiv_mul_cancel_of_tmod_eq_zero hw
    have hh' := Int.tdiv_mul_cancel_of_tmod_eq_zero hh
    simp [getCanvasMeasurement, BRAILLE_WIDTH, BRAILLE_HEIGHT, hpad, hw', hh']
    exact Decidable.not_and_iff_or_not.mp hpad

/-- Claim C5 witness: the spec's concrete scenario — a 20x24 raster with
padding (0,2) measures as padded with 10x4 cells of pixel size 2x6. -/
theorem getCanvasMeasurement_two_attempt_witness :
    getCanvasMeasurement 20 24 0 2 = .ok ⟨20, 24, false, 10, 4, 2, 6⟩ :=
  ((getCanvasMeasurement_two_attempt 20 24 0 2).1 (by decide) (by decide)).trans
    (by decide)

theorem splitOnChar_ne_nil (c : Char) (l : List Char) : splitOnChar c l ≠ [] := by
  induction l with
  | nil => simp [splitOnChar]
  | cons x xs ih =>
    by_cases hx : x = c
    · simp [splitOnChar, hx]
    · cases h : splitOnChar c xs with
      | nil => exact absurd h ih
      | cons y ys => simp [splitOnChar, hx, h]

theorem splitOnChar_not_mem {c : Char} {l : List Char} (h : c ∉ l) :
    splitOnChar c l = [l] := by
  induction l with
  | nil => rfl
  | cons x xs ih =>
    have hx : ¬x = c := fun hxc => h (hxc ▸ List.mem_cons_self x xs)
    have hxs : c ∉ xs := fun hc => h (List.mem_cons_of_mem _ hc)
    simp [splitOnChar, hx, ih hxs]

theorem splitOnChar_append_cons (c : Char) (a b : List Char) :
    splitOnChar c (a ++ c :: b) = splitOnChar c a ++ splitOnChar c b := by
  induction a with
  | nil => simp [splitOnChar]
  | cons x xs ih =>
    by_cases hx : x = c
    · simp [splitOnChar, hx, ih]
    · cases h : splitOnChar c xs with
      | nil => exact absurd h (splitOnChar_ne_nil c xs)
      | cons y ys => simp [splitOnChar, hx, ih, h]

theorem splitOnChar_length (c : Char) (l : List Char) :
    (splitOnChar c l).length = l.count c + 1 := by
  induction l with
  | nil => simp [splitOnChar]
  | cons x xs ih =>
    by_cases hx : x = c
    · simp [splitOnChar, hx, ih, List.count_cons]
    · cases h : splitOnChar c xs with
      | nil => exact absurd h (splitOnChar_ne_nil c xs)
      | cons y ys =>
        have hl := ih
        rw [h] at hl
        simp only [List.length_cons] at hl
        simp [splitOnChar, hx, h, List.count_cons, Ne.symm hx]
        omega

theorem not_mem_of_mem_splitOnChar {c : Char} {l : List Char} {p : List Char}
    (hp : p ∈ splitOnChar c l) : c ∉ p := by
  induction l generalizing p with
  | nil =>
    simp [splitOnChar] at hp
    simp [hp]
  | cons x xs ih =>
    by_cases hx : x = c
    · subst hx
      simp [splitOnChar] at hp
      rcases hp with h | h
      · simp [h]
      · exact ih h
    · cases h : splitOnChar c xs with
      | nil => exact absurd h (splitOnChar_ne_nil c xs)
      | cons y ys =>
        rw [splitOnChar, if_neg hx, h] at hp
        rcases List.mem_cons.mp hp with h1 | h2
        · subst h1
          intro hmem
          rcases List.mem_cons.mp hmem with hcx | hcy
          · exact hx hcx.symm
          · exact ih (h ▸ List.mem_cons_self y ys) hcy
        · exact ih (h ▸ List.mem_cons_of_mem y h2)

theorem joinChar_cons_cons (c : Char) (p q : List Char) (ps : List (List Char)) :
    joinChar c (p :: q :: ps) = p ++ c :: joinChar c (q :: ps) := rfl

theorem joinChar_splitOnChar (c : Char) (l : List Char) :
    joinChar c (splitOnChar c l) = l := by
  induction l with
  | nil => rfl
  | cons x xs ih =>
    by_cases hx : x = c
    · subst hx
      cases h : splitOnChar x xs with
      | nil => exact absurd h (splitOnChar_ne_nil x xs)
      | cons y ys =>
        rw [splitOnChar, if_pos rfl, h, joinChar_cons_cons, ← h, ih]
        rfl
    · cases h : splitOnChar c xs with
      | nil => exact absurd h (splitOnChar_ne_nil c xs)
      | cons y ys =>
        rw [splitOnChar, if_neg hx, h]
        have hj : joinChar c ((x :: y) :: ys) = x :: joinChar c (y :: ys) := by
          cases ys <;> simp [joinChar]
        rw [hj, ← h, ih]

theorem joinChar_append (c : Char) (as bs : List (List Char))
    (ha : as ≠ []) (hb : bs ≠ []) :
    joinChar c (as ++ bs) = joinChar c as ++ c :: joinChar c bs := by
  induction as with
  | nil => exact absurd rfl ha
  | cons p ps ih =>
    cases ps with
    | nil =>
      cases bs with
      | nil => exact absurd rfl hb
      | cons q qs => simp [joinChar_cons_cons, joinChar]
    | cons p1 ps1 =>
      have hne : (p1 :: ps1 : List (List Char)) ≠ [] := by simp
      have step := ih hne
      calc joinChar c ((p :: p1 :: ps1) ++ bs)
          = p ++ c :: joinChar c ((p1 :: ps1) ++ bs) := rfl
        _ = p ++ c :: (joinChar c (p1 :: ps1) ++ c :: joinChar c bs) := by
              rw [step]
        _ = joinChar c (p :: p1 :: ps1) ++ c :: joinChar c bs := by
              rw [joinChar_cons_cons]
              simp

/-- The trailing characters of a benday file name: `.by.png`. -/
def byPngSuffix : List Char :=
  '.' :: 'b' :: 'y' :: '.' :: 'p' :: 'n' :: 'g' :: []

/-- Claim C7 (amended): file-name parsing accepts exactly the form
`<name>.<pX>x<pY>.by.png` where the two padding segments are accepted by
`isValidPadding`, i.e. parse via Go's `strconv.Atoi` — which allows an
optional leading `+` or `-` sign — to a non-negative value; the accepted
value is the `Atoi` result.  Conjunct one: any file name of that shape
parses accordingly (to the two `Atoi` values when both segments are valid,
and to the padding error otherwise).  Conjunct two: every accepted file
name has that shape.  Conjuncts three and four: the spec's concrete
scenarios, `art.3x1.by.png` parses to (3, 1) and `art.by.png` is a
filename-format error. -/
theorem parsePaddingFromFileName_characterization :
    (∀ name p0 p1 : List Char,
      '.' ∉ p0 → '.' ∉ p1 → 'x' ∉ p0 → 'x' ∉ p1 →
      parsePaddingFromFileName (name ++ '.' :: (p0 ++ 'x' :: p1) ++ byPngSuffix) =
        (if isValidPadding p0 && isValidPadding p1 then
          .ok (goAtoiD p0) (goAtoiD p1)
        else .invalidPadding)) ∧
    (∀ (f : List Char) (x y : Int), parsePaddingFromFileName f = .ok x y →
      ∃ name p0 p1 : List Char,
        f = name ++ '.' :: (p0 ++ 'x' :: p1) ++ byPngSuffix ∧
        isValidPadding p0 = true ∧ isValidPadding p1 = true ∧
        x = goAtoiD p0 ∧ y = goAtoiD p1) ∧
    parsePaddingFromFileName ("art.3x1.by.png".toList) = .ok 3 1 ∧
    parsePaddingFromFileName ("art.by.png".toList) = .invalidFileName := by
  refine ⟨?_, ?_, by decide, by decide⟩
  · intro name p0 p1 h0 h1 hx0 hx1
    have hpd : '.' ∉ p0 ++ 'x' :: p1 := by
      intro hm
      rcases List.mem_append.mp hm with hm | hm
      · exact h0 hm
      · rcases List.mem_cons.mp hm with hm | hm
        · exact absurd hm (by decide)
        · exact h1 hm
    have e1 : name ++ '.' :: (p0 ++ 'x' :: p1) ++ byPngSuffix =
        name ++ '.' :: ((p0 ++ 'x' :: p1) ++
          '.' :: ('b' :: 'y' :: '.' :: 'p' :: 'n' :: 'g' :: [])) := by
      simp [byPngSuffix]
    have hsuffix : splitOnChar '.' ('b' :: 'y' :: '.' :: 'p' :: 'n' :: 'g' :: []) =
        [['b', 'y'], ['p', 'n', 'g']] := by decide
    have hsplit : splitOnChar '.' (name ++ '.' :: (p0 ++ 'x' :: p1) ++ byPngSuffix) =
        splitOnChar '.' name ++ [p0 ++ 'x' :: p1, ['b', 'y'], ['p', 'n', 'g']] := by
      rw [e1, splitOnChar_append_cons, splitOnChar_append_cons,
        splitOnChar_not_mem hpd, hsuffix]
      rfl
    have hcnt : ¬(name ++ '.' :: (p0 ++ 'x' :: p1) ++ byPngSuffix).count '.' < 3 := by
      have hl := splitOnChar_length '.' (name ++ '.' :: (p0 ++ 'x' :: p1) ++ byPngSuffix)
      rw [hsplit] at hl
      have hl2 := splitOnChar_length '.' name
      simp only [List.length_append, List.length_cons, List.length_nil] at hl
      omega
    have hxcnt : (p0 ++ 'x' :: p1).count 'x' = 1 := by
      have e0 : p0.count 'x' = 0 := List.count_eq_zero.mpr hx0
      have e2 : p1.count 'x' = 0 := List.count_eq_zero.mpr hx1
      simp [List.count_append, List.count_cons, e0, e2]
    have hxsplit : splitOnChar 'x' (p0 ++ 'x' :: p1) = [p0, p1] := by
      rw [splitOnChar_append_cons, splitOnChar_not_mem hx0, splitOnChar_not_mem hx1]
      rfl
    have hrev : (splitOnChar '.' (name ++ '.' :: (p0 ++ 'x' :: p1) ++ byPngSuffix)).reverse =
        ['p', 'n', 'g'] :: ['b', 'y'] :: (p0 ++ 'x' :: p1) ::
          (splitOnChar '.' name).reverse := by
      rw [hsplit]
      simp
    simp only [parsePaddingFromFileName]
    rw [if_neg hcnt, hrev]
    simp only [List.getD_cons_zero, List.getD_cons_succ]
    rw [if_neg (by simp), if_neg (by simp), if_neg (by simp [hxcnt]), hxsplit]
    simp only [List.getD_cons_zero, List.getD_cons_succ]
  · intro f x y hok
    by_cases hc : f.count '.' < 3
    · simp only [parsePaddingFromFileName, if_pos hc] at hok
      exact absurd hok (by simp)
    · simp only [parsePaddingFromFileName, if_neg hc] at hok
      have hlenR : (splitOnChar '.' f).reverse.length = f.count '.' + 1 := by
        rw [List.length_reverse, splitOnChar_length]
      obtain ⟨e, R1, hRe⟩ : ∃ e R1, (splitOnChar '.' f).reverse = e :: R1 := by
        cases h : (splitOnChar '.' f).reverse with
        | nil => rw [h] at hlenR; simp at hlenR
        | cons a t => exact ⟨a, t, rfl⟩
      obtain ⟨bseg, R2, hR1⟩ : ∃ b R2, R1 = b :: R2 := by
        cases h : R1 with
        | nil => rw [hRe, h] at hlenR; simp at hlenR; omega
        | cons a t => exact ⟨a, t, rfl⟩
      obtain ⟨pad, R3, hR2⟩ : ∃ p R3, R2 = p :: R3 := by
        cases h : R2 with
        | nil => rw [hRe, hR1, h] at hlenR; simp at hlenR; omega
        | cons a t => exact ⟨a, t, rfl⟩
      obtain ⟨n0, R4, hR3⟩ : ∃ n R4, R3 = n :: R4 := by
        cases h : R3 with
        | nil => rw [hRe, hR1, hR2, h] at hlenR; simp at hlenR; omega
        | cons a t => exact ⟨a, t, rfl⟩
      rw [hRe, hR1, hR2, hR3] at hok
      simp only [List.getD_cons_zero, List.getD_cons_succ] at hok
      split_ifs at hok with he hb hxc hvalid
      rw [Decidable.not_not] at he hb
      rw [Decidable.not_not] at hxc
      have hsplen : (splitOnChar 'x' pad).length = 2 := by
        rw [splitOnChar_length, hxc]
      obtain ⟨p0, p1, hsp⟩ : ∃ p0 p1, splitOnChar 'x' pad = [p0, p1] := by
        cases h : splitOnChar 'x' pad with
        | nil => rw [h] at hsplen; simp at hsplen
        | cons a t =>
          cases h2 : t with
          | nil => rw [h, h2] at hsplen; simp at hsplen
          | cons a2 t2 =>
            cases h3 : t2 with
            | nil => exact ⟨a, a2, rfl⟩
            | cons a3 t3 => rw [h, h2, h3] at hsplen; simp at hsplen
      rw [hsp] at hok hvalid
      simp only [List.getD_cons_zero, List.getD_cons_succ] at hok hvalid
      obtain ⟨hx', hy'⟩ : goAtoiD p0 = x ∧ goAtoiD p1 = y := by
        cases hok
        exact ⟨rfl, rfl⟩
      have hpadeq : pad = p0 ++ 'x' :: p1 := by
        have hj := joinChar_splitOnChar 'x' pad
        rw [hsp, joinChar_cons_cons] at hj
        exact hj.symm
      have hsplitf : splitOnChar '.' f =
          (n0 :: R4).reverse ++ [pad, bseg, e] := by
        have hrr : splitOnChar '.' f = ((splitOnChar '.' f).reverse).reverse := by
          rw [List.reverse_reverse]
        rw [hrr, hRe, hR1, hR2, hR3]
        simp [List.reverse_cons, List.append_assoc]
      have hfname : f = joinChar '.' ((n0 :: R4).reverse ++ [pad, bseg, e]) := by
        rw [← hsplitf, joinChar_splitOnChar]
      refine ⟨joinChar '.' ((n0 :: R4).reverse), p0, p1, ?_, ?_, ?_, hx'.symm, hy'.symm⟩
      · rw [hfname, joinChar_append '.' _ _ (by simp) (by simp)]
        rw [joinChar_cons_cons, joinChar_cons_cons]
        rw [he, hb, hpadeq]
        simp [joinChar, byPngSuffix]
      · rw [Bool.and_eq_true] at hvalid
        exact hvalid.1
      · rw [Bool.and_eq_true] at hvalid
        exact hvalid.2

/-- Claim C7 witness: a padding segment with an explicit `+` sign is
accepted; `pic.+0x7.by.png` parses to paddings (0, 7) by the first conjunct
of the characterization. -/
theorem parsePaddingFromFileName_characterization_witness :
    parsePaddingFromFileName ("pic.+0x7.by.png".toList) = .ok 0 7 := by
  have h := parsePaddingFromFileName_characterization.1
    ("pic".toList) ("+0".toList) ("7".toList)
    (by decide) (by decide) (by decide) (by decide)
  have e : ("pic.+0x7.by.png".toList) =
      "pic".toList ++ '.' :: ("+0".toList ++ 'x' :: "7".toList) ++ byPngSuffix := by
    decide
  rw [e]
  exact h.trans (by decide)

/-- Claim C7 (counterexample): the claim as stated says padding integers
have no leading `+` or sign and that any deviation is a filename-format
error, but `strconv.Atoi` accepts a sign, so `art.+3x1.by.png` — which
deviates from the stated form — is accepted and parses to (3, 1). -/
theorem parsePaddingFromFileName_accepts_plus_sign :
    parsePaddingFromFileName ("art.+3x1.by.png".toList) = .ok 3 1 := by
  decide

theorem splitOnChar_join_rows (c : Char) (rest : List (List Char)) :
    ∀ first : List Char, c ∉ first → (∀ r ∈ rest, c ∉ r) →
    splitOnChar c (first ++ (rest.map (fun l => c :: l)).flatten) = first :: rest := by
  induction rest with
  | nil =>
    intro first hf _
    simp [splitOnChar_not_mem hf]
  | cons r rs ih =>
    intro first hf hr
    have e : first ++ ((r :: rs).map (fun l => c :: l)).flatten =
        first ++ c :: (r ++ (rs.map (fun l => c :: l)).flatten) := by
      simp
    rw [e, splitOnChar_append_cons, splitOnChar_not_mem hf,
      ih r (hr r (List.mem_cons_self r rs))
        (fun q hq => hr q (List.mem_cons_of_mem _ hq))]
    rfl

theorem dropCR_of_braille (r : List Char)
    (hbr : ∀ ch ∈ r, isBraille ch = true) : dropCR r = r := by
  unfold dropCR
  cases h : r.getLast? with
  | none => simp
  | some ch =>
    have hch : ch ∈ r := List.mem_of_getLast?_eq_some h
    have hb := hbr ch hch
    have hne : ¬(some ch = some '\r') := by
      intro he
      rw [Option.some.injEq] at he
      subst he
      exact absurd hb (by decide)
    simp [hne]

/-- Claim C9 (amended): for every glyph grid with at least one row, rows of
equal positive length, and only braille-block glyphs, importing the text
produced by export yields exactly the original grid.  (Grids with zero-width
rows do not round-trip: their exported text has no characters, and import
rejects it as empty — see the counterexample.) -/
theorem export_import_roundtrip (G : List (List Char)) (L : Nat) (hL : 0 < L)
    (hG : G ≠ []) (hlen : ∀ r ∈ G, r.length = L)
    (hbr : ∀ r ∈ G, ∀ ch ∈ r, isBraille ch = true) :
    ∃ t, exportText G = some t ∧ importPixelData t = .ok G := by
  match G, hG with
  | first :: rest, _ =>
    refine ⟨first ++ (rest.map (fun l => '\n' :: l)).flatten, rfl, ?_⟩
    have hnl : ∀ r ∈ first :: rest, '\n' ∉ r := by
      intro r hrG hmem
      exact absurd (hbr r hrG '\n' hmem) (by decide)
    have hfne : first ≠ [] := by
      intro h
      have hl := hlen first (List.mem_cons_self first rest)
      rw [h] at hl
      simp at hl
      omega
    have hsc : goScanLines (first ++ (rest.map (fun l => '\n' :: l)).flatten) =
        first :: rest := by
      unfold goScanLines
      rw [if_neg (by simp [hfne])]
      rw [splitOnChar_join_rows '\n' rest first
        (hnl first (List.mem_cons_self first rest))
        (fun r hr => hnl r (List.mem_cons_of_mem _ hr))]
      have hlast : ¬((first :: rest).getLast? = some ([] : List Char)) := by
        intro h
        have hmem : ([] : List Char) ∈ first :: rest :=
          List.mem_of_getLast?_eq_some h
        have hl := hlen [] hmem
        simp at hl
        omega
      show (if (first :: rest).getLast? = some [] then
          (first :: rest).dropLast else (first :: rest)).map dropCR =
        first :: rest
      rw [if_neg hlast]
      calc (first :: rest).map dropCR
          = (first :: rest).map (fun r => r) :=
            List.map_congr_left (fun r hr => dropCR_of_braille r (hbr r hr))
        _ = first :: rest := List.map_id' _
    have hmapfilter : (first :: rest).map (fun line => line.filter keepRune) =
        first :: rest := by
      calc (first :: rest).map (fun line => line.filter keepRune)
          = (first :: rest).map (fun line => line) := by
            apply List.map_congr_left
            intro r hr
            apply List.filter_eq_self.mpr
            intro ch hch
            simp [keepRune, hbr r hr ch hch]
        _ = first :: rest := List.map_id' _
    have hfe : first.isEmpty = false := by
      cases first with
      | nil => exact absurd rfl hfne
      | cons a t => rfl
    simp only [importPixelData, hsc, hmapfilter]
    rw [if_neg (by simp), if_neg (by simp [List.all_cons, hfe])]
    simp

/-- Claim C9 witness: the spec's concrete import scenario grid round-trips
through export and import unchanged. -/
theorem export_import_roundtrip_witness :
    ∃ t, exportText [['⠁', '⠂'], ['⠄', '⡀']] = some t ∧
      importPixelData t = .ok [['⠁', '⠂'], ['⠄', '⡀']] :=
  export_import_roundtrip [['⠁', '⠂'], ['⠄', '⡀']] 2 (by decide) (by decide)
    (by decide) (by decide)

/-- Claim C9 (counterexample): the grid `[[]]` — one row of length zero,
vacuously rectangular and all-braille — does not round-trip: export produces
the empty text and import rejects the empty text with the "No data
received." error instead of returning the grid. -/
theorem export_import_roundtrip_fails_on_empty_row :
    exportText [[]] = some [] ∧ importPixelData [] = .error ∧
      importPixelData [] ≠ .ok [[]] := by
  refine ⟨rfl, rfl, ?_⟩
  decide

end Benday
